import Mathlib

/-!
Shallow embedding of `src/hello_backend/src/lib.rs`: a CRUD store of `Todo`
records held in a `StableBTreeMap<u64, Todo, Memory>` with page-based listing.

Modelling conventions:
* The `StableBTreeMap` is modelled as an association list sorted by key in
  strictly ascending order (`TodoMap` with the `SortedKeys` invariant); its
  ascending iteration is the list itself, `len()` is `List.length`.
* `u64` / `usize` values are modelled as `Nat`.  The only place where machine
  arithmetic matters is the skip computation `(page_num - 1) * page_size` in
  `get_page` (`lib.rs:25`), which is `usize` arithmetic: in release builds
  (the configuration a deployed canister runs) it wraps modulo `2^64` on a
  64-bit target, so the model computes the skip modulo `USIZE = 2^64`
  (debug builds panic on the same over/underflows instead; either way the
  wrapped inputs produce no ordinary page).
* `update_todo` calls `Option::unwrap` on the lookup (`lib.rs:110`), which
  panics (traps) when the id is absent; the model returns `Option` with
  `none` standing for that trap.
* Candid serialization (`Encode!`/`Decode!` in the `Storable` impl,
  `lib.rs:37-50`) is modelled by an executable self-describing byte encoding
  `encodeTodo`/`decodeTodo` with the same shape as the candid wire format:
  a 4-byte magic header, the `u64` id in little-endian, a length-prefixed
  title, and one byte for the bool.  `MAX_VALUE_SIZE = 100` (`lib.rs:35`)
  bounds the encoded size.
-/

/-- The `Todo` struct (`lib.rs:8-12`): `id: u64`, `title: String`,
`completed: bool`. -/
structure Todo where
  id : Nat
  title : String
  completed : Bool
deriving DecidableEq, Repr

/-- Model of `StableBTreeMap<u64, Todo, Memory>`: an association list of
`(key, record)` pairs; the map invariant (keys strictly ascending) is
`SortedKeys` below. -/
abbrev TodoMap := List (Nat × Todo)

/-- The B-tree map invariant: keys strictly ascending, hence unique; the
list is exactly the map's ascending iteration. -/
abbrev SortedKeys (m : TodoMap) : Prop := List.Pairwise (fun a b => a.1 < b.1) m

/-- `usize` modulus on a 64-bit target. -/
abbrev USIZE : Nat := 2 ^ 64

/-- `MAX_VALUE_SIZE` (`lib.rs:35`): bound on the encoded size of a record. -/
def MAX_VALUE_SIZE : Nat := 100

/-- Point lookup, model of `map.get(&id)`: first (under `SortedKeys`, only)
entry with the given key. -/
def getTodo (k : Nat) : TodoMap → Option Todo
  | [] => none
  | (k', v) :: rest => if k = k' then some v else getTodo k rest

/-- Model of `map.insert(id, todo)`: insert keeping ascending key order,
replacing the existing entry on an equal key (last-write-wins). -/
def insertTodo (k : Nat) (v : Todo) : TodoMap → TodoMap
  | [] => [(k, v)]
  | (k', v') :: rest =>
    if k < k' then (k, v) :: (k', v') :: rest
    else if k = k' then (k, v) :: rest
    else (k', v') :: insertTodo k v rest

/-- Model of `map.remove(&id)`: drop the entry with the given key if
present; no-op otherwise. -/
def removeTodo (k : Nat) : TodoMap → TodoMap
  | [] => []
  | (k', v) :: rest => if k = k' then rest else (k', v) :: removeTodo k rest

/-- `get_page` (`lib.rs:23-28`):
`self.iter().skip((page_num - 1) * page_size).take(page_size).collect()`.
The skip count is computed in `usize`: subtraction and multiplication wrap
modulo `USIZE` (release-build semantics on a 64-bit target). -/
def get_page (m : TodoMap) (page_num page_size : Nat) : List (Nat × Todo) :=
  (m.drop ((((page_num + (USIZE - 1)) % USIZE) * page_size) % USIZE)).take page_size

/-- `create_todo` (`lib.rs:69-85`): `id = map.len() + 1`, insert
`Todo { id, title, completed: false }`, return the id.  The value-size bound
that `ic-stable-structures` enforces inside `insert` (a panic in recent
versions, a discarded `Err` in 0.5.x) has no error path in `create_todo`
itself, whose return type is a bare `u64`; see the encoding theorems. -/
def create_todo (title : String) (m : TodoMap) : Nat × TodoMap :=
  let id := m.length + 1
  (id, insertTodo id { id := id, title := title, completed := false } m)

/-- `read_todos` (`lib.rs:88-104`): take the page, return `none` when it is
empty and otherwise the records only, ids dropped. -/
def read_todos (page_num page_size : Nat) (m : TodoMap) : Option (List Todo) :=
  let page := get_page m page_num page_size
  if page.isEmpty then none else some (page.map (fun p => p.2))

/-- `update_todo` (`lib.rs:107-122`): look the record up (`unwrap` panics on
a missing id, modelled as `none`), overwrite the fields that are `some`,
re-insert. -/
def update_todo (id : Nat) (title : Option String) (completed : Option Bool)
    (m : TodoMap) : Option TodoMap :=
  match getTodo id m with
  | none => none
  | some todo =>
    let todo1 := match title with
      | some newTitle => { todo with title := newTitle }
      | none => todo
    let todo2 := match completed with
      | some newCompleted => { todo1 with completed := newCompleted }
      | none => todo1
    some (insertTodo id todo2 m)

/-- `delete_todo` (`lib.rs:125-129`): remove the entry, silent no-op when
absent. -/
def delete_todo (id : Nat) (m : TodoMap) : TodoMap := removeTodo id m

/-- Running `create_todo` over a list of titles in order, threading the
store; returns the assigned ids in call order and the final store. -/
def createAll : List String → TodoMap → List Nat × TodoMap
  | [], m => ([], m)
  | t :: ts, m =>
    let r := create_todo t m
    let rest := createAll ts r.2
    (r.1 :: rest.1, rest.2)

/-- The store after creating the given titles on top of `k` existing
records: entries `(k+1, ...), (k+2, ...)` in order. -/
def stateFrom (k : Nat) : List String → TodoMap
  | [] => []
  | t :: ts => (k + 1, { id := k + 1, title := t, completed := false }) :: stateFrom (k + 1) ts

/-- Little-endian base-256 digits, fixed width `k`, of `n` (the encoding of
a `nat64` value in the candid value section, generalized to any width). -/
def bytesLE : Nat → Nat → List Nat
  | 0, _ => []
  | k + 1, n => n % 256 :: bytesLE k (n / 256)

/-- Read `k` little-endian base-256 digits back off a byte stream. -/
def readLE : Nat → List Nat → Option (Nat × List Nat)
  | 0, bs => some (0, bs)
  | _ + 1, [] => none
  | k + 1, b :: bs =>
    match readLE k bs with
    | some (n, rest) => some (b + 256 * n, rest)
    | none => none

/-- One title character as three little-endian bytes (code points are below
`2^24`). -/
def encodeChar (c : Char) : List Nat := bytesLE 3 c.toNat

/-- Read `k` characters back off a byte stream. -/
def decodeChars : Nat → List Nat → Option (List Char × List Nat)
  | 0, bs => some ([], bs)
  | k + 1, bs =>
    match readLE 3 bs with
    | some (n, rest) =>
      match decodeChars k rest with
      | some (cs, rest') => some (Char.ofNat n :: cs, rest')
      | none => none
    | none => none

/-- Model of `Todo::to_bytes` (`lib.rs:38-40`, `Encode!(self).unwrap()`):
the candid-style self-describing serialization — 4-byte magic header, the
`u64` id little-endian, the char-count-prefixed title, one bool byte. -/
def encodeTodo (t : Todo) : List Nat :=
  [68, 73, 68, 76] ++ bytesLE 8 t.id ++ bytesLE 4 t.title.length
    ++ (t.title.data.map encodeChar).flatten ++ [if t.completed then 1 else 0]

/-- Model of `Todo::from_bytes` (`lib.rs:42-44`, `Decode!(..).unwrap()`):
parse the serialization back; `none` models the decode panic on malformed
bytes. -/
def decodeTodo (bs : List Nat) : Option Todo :=
  match bs with
  | 68 :: 73 :: 68 :: 76 :: rest =>
    match readLE 8 rest with
    | some (idv, rest1) =>
      match readLE 4 rest1 with
      | some (len, rest2) =>
        match decodeChars len rest2 with
        | some (cs, rest3) =>
          match rest3 with
          | [0] => some { id := idv, title := String.mk cs, completed := false }
          | [1] => some { id := idv, title := String.mk cs, completed := true }
          | _ => none
        | none => none
      | none => none
    | none => none
  | _ => none

/-! ### Lemmas about the ordered map -/

theorem getTodo_insertTodo_self (k : Nat) (v : Todo) (m : TodoMap) :
    getTodo k (insertTodo k v m) = some v := by
  induction m with
  | nil => simp [insertTodo, getTodo]
  | cons p rest ih =>
    obtain ⟨k', v'⟩ := p
    by_cases h1 : k < k'
    · simp [insertTodo, getTodo, h1]
    · by_cases h2 : k = k'
      · simp [insertTodo, getTodo, h1, h2]
      · simp [insertTodo, getTodo, h1, h2, ih]

theorem getTodo_insertTodo_ne (j k : Nat) (v : Todo) (m : TodoMap) (hjk : j ≠ k) :
    getTodo j (insertTodo k v m) = getTodo j m := by
  induction m with
  | nil => simp [insertTodo, getTodo, hjk]
  | cons p rest ih =>
    obtain ⟨k', v'⟩ := p
    by_cases h1 : k < k'
    · simp [insertTodo, getTodo, h1, hjk]
    · by_cases h2 : k = k'
      · subst h2
        simp [insertTodo, getTodo, h1, hjk]
      · simp [insertTodo, getTodo, h1, h2, ih]

theorem getTodo_some_mem (k : Nat) (r : Todo) (m : TodoMap)
    (h : getTodo k m = some r) : (k, r) ∈ m := by
  induction m with
  | nil => simp [getTodo] at h
  | cons p rest ih =>
    obtain ⟨k', v'⟩ := p
    by_cases h2 : k = k'
    · subst h2
      simp [getTodo] at h
      subst h
      exact List.mem_cons_self _ _
    · simp [getTodo, h2] at h
      exact List.mem_cons_of_mem _ (ih h)

theorem insertTodo_self_eq (k : Nat) (r : Todo) (m : TodoMap)
    (hs : SortedKeys m) (h : getTodo k m = some r) : insertTodo k r m = m := by
  induction m with
  | nil => simp [getTodo] at h
  | cons p rest ih =>
    obtain ⟨k', v'⟩ := p
    have hs' := List.pairwise_cons.mp hs
    by_cases h2 : k = k'
    · subst h2
      simp [getTodo] at h
      simp [insertTodo, h]
    · simp [getTodo, h2] at h
      have hk : k' < k := hs'.1 (k, r) (getTodo_some_mem k r rest h)
      have h1 : ¬ k < k' := by omega
      simp [insertTodo, h1, h2, ih hs'.2 h]

/-! ### Lemmas about sequences of creates -/

theorem stateFrom_length (k : Nat) (ts : List String) :
    (stateFrom k ts).length = ts.length := by
  induction ts generalizing k with
  | nil => rfl
  | cons t ts ih => simp [stateFrom, ih]

theorem stateFrom_key_bound (k : Nat) (ts : List String) :
    ∀ p ∈ stateFrom k ts, k < p.1 ∧ p.1 ≤ k + ts.length := by
  induction ts generalizing k with
  | nil => simp [stateFrom]
  | cons t ts ih =>
    intro p hp
    simp only [stateFrom, List.mem_cons] at hp
    rcases hp with rfl | hp
    · constructor
      · show k < k + 1
        omega
      · show k + 1 ≤ k + (t :: ts).length
        simp only [List.length_cons]
        omega
    · have := ih (k + 1) p hp
      simp only [List.length_cons]
      omega

theorem insertTodo_append (k : Nat) (v : Todo) (m : TodoMap)
    (h : ∀ p ∈ m, p.1 < k) : insertTodo k v m = m ++ [(k, v)] := by
  induction m with
  | nil => rfl
  | cons p rest ih =>
    obtain ⟨k', v'⟩ := p
    have hk : k' < k := h (k', v') (List.mem_cons_self _ _)
    have h1 : ¬ k < k' := by omega
    have h2 : ¬ k = k' := by omega
    simp only [insertTodo, if_neg h1, if_neg h2, List.cons_append, List.cons.injEq, true_and]
    exact ih (fun p hp => h p (List.mem_cons_of_mem _ hp))

theorem stateFrom_append_single (k : Nat) (ts : List String) (t : String) :
    stateFrom k (ts ++ [t]) = stateFrom k ts
      ++ [(k + ts.length + 1,
           { id := k + ts.length + 1, title := t, completed := false })] := by
  induction ts generalizing k with
  | nil => simp [stateFrom]
  | cons a ts ih =>
    have step : stateFrom k ((a :: ts) ++ [t])
        = (k + 1, { id := k + 1, title := a, completed := false })
          :: stateFrom (k + 1) (ts ++ [t]) := rfl
    have step2 : stateFrom k (a :: ts)
        = (k + 1, { id := k + 1, title := a, completed := false })
          :: stateFrom (k + 1) ts := rfl
    rw [step, ih (k + 1), step2, List.cons_append]
    have e : k + 1 + ts.length + 1 = k + (a :: ts).length + 1 := by
      simp only [List.length_cons]
      omega
    rw [e]

theorem create_todo_stateFrom (t : String) (pre : List String) :
    create_todo t (stateFrom 0 pre) = (pre.length + 1, stateFrom 0 (pre ++ [t])) := by
  have h1 : create_todo t (stateFrom 0 pre)
      = ((stateFrom 0 pre).length + 1,
         insertTodo ((stateFrom 0 pre).length + 1)
           { id := (stateFrom 0 pre).length + 1, title := t, completed := false }
           (stateFrom 0 pre)) := rfl
  rw [h1, stateFrom_length]
  rw [insertTodo_append _ _ _ (fun p hp => by
    have := stateFrom_key_bound 0 pre p hp
    omega)]
  rw [stateFrom_append_single]
  norm_num

theorem createAll_stateFrom (ts pre : List String) :
    createAll ts (stateFrom 0 pre)
      = (List.range' (pre.length + 1) ts.length, stateFrom 0 (pre ++ ts)) := by
  induction ts generalizing pre with
  | nil => simp [createAll]
  | cons t ts ih =>
    simp only [createAll, create_todo_stateFrom, ih (pre ++ [t]), List.length_append,
      List.length_cons, List.length_nil, List.range'_succ, List.append_assoc,
      List.singleton_append]

theorem getTodo_stateFrom (ts : List String) (k i : Nat) (h : i < ts.length) :
    getTodo (k + i + 1) (stateFrom k ts)
      = some { id := k + i + 1, title := ts.get ⟨i, h⟩, completed := false } := by
  induction ts generalizing k i with
  | nil => simp at h
  | cons t ts ih =>
    cases i with
    | zero => simp [stateFrom, getTodo]
    | succ i =>
      have hne : k + (i + 1) + 1 ≠ k + 1 := by omega
      simp only [stateFrom, getTodo, if_neg hne]
      have := ih (k + 1) i (by simpa using h)
      have e : k + 1 + i + 1 = k + (i + 1) + 1 := by omega
      rw [e] at this
      rw [this]
      rfl

/-! ### Pagination lemmas -/

theorem skip_normalize (pn ps : Nat) (h1 : 1 ≤ pn) (h2 : pn ≤ USIZE)
    (h3 : (pn - 1) * ps < USIZE) :
    (((pn + (USIZE - 1)) % USIZE) * ps) % USIZE = (pn - 1) * ps := by
  have hU : USIZE = 18446744073709551616 := by norm_num
  have e1 : (pn + (USIZE - 1)) % USIZE = pn - 1 := by
    rw [hU] at h2 ⊢
    omega
  rw [e1, Nat.mod_eq_of_lt h3]

theorem get_page_eq_drop_take (m : TodoMap) (pn ps : Nat) (h1 : 1 ≤ pn)
    (h2 : pn ≤ USIZE) (h3 : (pn - 1) * ps < USIZE) :
    get_page m pn ps = (m.drop ((pn - 1) * ps)).take ps := by
  unfold get_page
  rw [skip_normalize pn ps h1 h2 h3]

theorem ceil_div_le_self (len P : Nat) (hP : 0 < P) : (len + P - 1) / P ≤ len := by
  rcases Nat.eq_zero_or_pos len with h0 | hpos
  · subst h0
    have : (0 + P - 1) / P = 0 := Nat.div_eq_of_lt (by omega)
    omega
  · have hmul : (len + 1) * P = len * P + P := by rw [Nat.succ_mul]
    have hle : len ≤ len * P := Nat.le_mul_of_pos_right _ hP
    have hlt : len + P - 1 < (len + 1) * P := by omega
    have := (Nat.div_lt_iff_lt_mul hP).mpr hlt
    omega

theorem mul_lt_of_lt_ceil_div (len P i : Nat) (hP : 0 < P)
    (hi : i < (len + P - 1) / P) : i * P < len := by
  have hpos : 1 ≤ len := by
    by_contra hn
    have h0 : len = 0 := by omega
    rw [h0] at hi
    have e : (0 + P - 1) / P = 0 := Nat.div_eq_of_lt (by omega)
    omega
  have hc1 : ((len + P - 1) / P) * P ≤ len + P - 1 := Nat.div_mul_le_self _ _
  calc i * P ≤ ((len + P - 1) / P - 1) * P := Nat.mul_le_mul_right P (by omega)
    _ = ((len + P - 1) / P) * P - 1 * P := Nat.sub_mul _ _ _
    _ ≤ (len + P - 1) - 1 * P := Nat.sub_le_sub_right hc1 _
    _ < len := by omega

theorem chunks_flatten (P : Nat) (hP : 0 < P) :
    ∀ (c : Nat) (l : TodoMap), (l.length + P - 1) / P = c →
      ((List.range c).map (fun i => (l.drop (i * P)).take P)).flatten = l := by
  intro c
  induction c with
  | zero =>
    intro l hl
    have hlen : l.length = 0 := by
      by_contra hne
      have h1 : 1 ≤ l.length := Nat.pos_of_ne_zero hne
      have e1 : l.length + P - 1 = (l.length - 1) + P := by omega
      rw [e1, Nat.add_div_right _ hP] at hl
      exact Nat.succ_ne_zero _ hl
    rw [List.length_eq_zero.mp hlen]
    rfl
  | succ c ih =>
    intro l hl
    have hlen : 1 ≤ l.length := by
      by_contra hne
      have h0 : l.length = 0 := by omega
      rw [h0] at hl
      have e : (0 + P - 1) / P = 0 := Nat.div_eq_of_lt (by omega)
      rw [e] at hl
      exact Nat.succ_ne_zero c hl.symm
    have hdiv : ((l.drop P).length + P - 1) / P = c := by
      rw [List.length_drop]
      rcases le_or_lt l.length P with hle | hgt
      · have h0 : l.length - P = 0 := by omega
        rw [h0]
        have e0 : (0 + P - 1) / P = 0 := Nat.div_eq_of_lt (by omega)
        rw [e0]
        have e1 : l.length + P - 1 = (l.length - 1) + P := by omega
        rw [e1, Nat.add_div_right _ hP] at hl
        have e2 : (l.length - 1) / P = 0 := Nat.div_eq_of_lt (by omega)
        rw [e2] at hl
        omega
      · have e1 : l.length - P + P - 1 = (l.length - 1 - P) + P := by omega
        rw [e1, Nat.add_div_right _ hP]
        have e2 : l.length + P - 1 = (l.length - 1) + P := by omega
        rw [e2, Nat.add_div_right _ hP] at hl
        have e3 : l.length - 1 = (l.length - 1 - P) + P := by omega
        rw [e3, Nat.add_div_right _ hP] at hl
        have := Nat.succ_injective hl
        omega
    rw [List.range_succ_eq_map, List.map_cons, List.map_map, List.flatten_cons]
    have hhead : (l.drop (0 * P)).take P = l.take P := by
      rw [Nat.zero_mul, List.drop_zero]
    have htail : ((List.range c).map
          ((fun i => (l.drop (i * P)).take P) ∘ Nat.succ)).flatten = l.drop P := by
      rw [List.map_congr_left (g := fun i => ((l.drop P).drop (i * P)).take P)
        (fun i _ => by
          simp only [Function.comp_apply]
          rw [List.drop_drop]
          have e : P + i * P = Nat.succ i * P := by rw [Nat.succ_mul]; omega
          rw [e])]
      exact ih (l.drop P) hdiv
    rw [hhead, htail, List.take_append_drop]

/-! ### Encoding lemmas -/

theorem readLE_bytesLE (k : Nat) : ∀ (n : Nat) (rest : List Nat), n < 256 ^ k →
    readLE k (bytesLE k n ++ rest) = some (n, rest) := by
  induction k with
  | zero =>
    intro n rest h
    have hn : n = 0 := by simpa using h
    subst hn
    rfl
  | succ k ih =>
    intro n rest h
    have hdiv : n / 256 < 256 ^ k := by
      have hp : (256 : Nat) ^ (k + 1) = 256 ^ k * 256 := pow_succ 256 k
      exact Nat.div_lt_of_lt_mul (by omega)
    have hmod : n % 256 + 256 * (n / 256) = n := by omega
    simp only [bytesLE, List.cons_append, readLE, List.append_eq]
    rw [ih (n / 256) rest hdiv]
    show some (n % 256 + 256 * (n / 256), rest) = some (n, rest)
    rw [hmod]

theorem char_toNat_lt (c : Char) : c.toNat < 256 ^ 3 := by
  have h := c.valid
  rcases h with h | ⟨_, h⟩ <;>
    · show c.val.toNat < 256 ^ 3
      omega

theorem decodeChars_flatten (cs : List Char) (rest : List Nat) :
    decodeChars cs.length ((cs.map encodeChar).flatten ++ rest) = some (cs, rest) := by
  induction cs with
  | nil => rfl
  | cons c cs ih =>
    simp only [List.map_cons, List.flatten_cons, List.length_cons, List.append_assoc,
      decodeChars, encodeChar]
    rw [readLE_bytesLE 3 c.toNat _ (char_toNat_lt c)]
    simp only [ih, Char.ofNat_toNat]

theorem decodeTodo_encodeTodo (t : Todo) (hid : t.id < 2 ^ 64)
    (hlen : t.title.length < 2 ^ 32) :
    decodeTodo (encodeTodo t) = some t := by
  obtain ⟨tid, ⟨tdata⟩, tc⟩ := t
  have hid' : tid < 2 ^ 64 := hid
  have hlen' : tdata.length < 2 ^ 32 := hlen
  have s1 := readLE_bytesLE 8 tid (bytesLE 4 tdata.length
    ++ ((tdata.map encodeChar).flatten ++ [if tc then 1 else 0])) (by norm_num; omega)
  have s2 := readLE_bytesLE 4 tdata.length
    ((tdata.map encodeChar).flatten ++ [if tc then 1 else 0]) (by norm_num; omega)
  have s3 := decodeChars_flatten tdata [if tc then 1 else 0]
  simp only [encodeTodo, decodeTodo, String.length, List.cons_append, List.nil_append,
    List.append_assoc, s1, s2, s3]
  cases tc <;> rfl

theorem bytesLE_length (k n : Nat) : (bytesLE k n).length = k := by
  induction k generalizing n with
  | zero => rfl
  | succ k ih => simp [bytesLE, ih]

theorem flatten_map_encodeChar_length (cs : List Char) :
    ((cs.map encodeChar).flatten).length = 3 * cs.length := by
  induction cs with
  | nil => rfl
  | cons c cs ih =>
    simp only [List.map_cons, List.flatten_cons, List.length_append, List.length_cons,
      ih, encodeChar, bytesLE_length]
    omega

theorem encodeTodo_length (t : Todo) :
    (encodeTodo t).length = 17 + 3 * t.title.length := by
  obtain ⟨tid, ⟨tdata⟩, tc⟩ := t
  simp only [encodeTodo, List.length_append, List.length_cons, List.length_nil,
    bytesLE_length, flatten_map_encodeChar_length, String.length]
  omega

/-! ### Claim theorems -/

/-- C1: `create_todo` allocates `id = live_count + 1`, inserts the record with
that id, the given title and `completed = false`, and returns the id; from an
empty store, `N` creates return ids `1..N` in order, each retrievable with its
title and `completed = false`. -/
theorem create_todo_assigns_sequential_ids (title : String) (m : TodoMap)
    (ts : List String) :
    (create_todo title m).1 = m.length + 1
    ∧ getTodo (m.length + 1) (create_todo title m).2
        = some { id := m.length + 1, title := title, completed := false }
    ∧ (createAll ts []).1 = (List.range ts.length).map (fun i => i + 1)
    ∧ ∀ i, (h : i < ts.length) →
        getTodo (i + 1) (createAll ts []).2
          = some { id := i + 1, title := ts.get ⟨i, h⟩, completed := false } := by
  refine ⟨rfl, getTodo_insertTodo_self _ _ m, ?_, ?_⟩
  · rw [show createAll ts [] = createAll ts (stateFrom 0 []) from rfl,
      createAll_stateFrom ts [], List.range'_eq_map_range]
    simp [Nat.add_comm]
  · intro i h
    rw [show createAll ts [] = createAll ts (stateFrom 0 []) from rfl,
      createAll_stateFrom ts []]
    have h2 := getTodo_stateFrom ts 0 i h
    simpa using h2

theorem create_todo_assigns_sequential_ids_witness :
    getTodo 2 (createAll ["a", "b"] []).2
      = some { id := 2, title := "b", completed := false } :=
  (create_todo_assigns_sequential_ids "a" [] ["a", "b"]).2.2.2 1 (by norm_num)

/-- C2 (amended): for `1 ≤ page_num` with the skip product in `usize` range,
`get_page` returns up to `page_size` elements after skipping
`(page_num - 1) * page_size`; past-the-end skip or `page_size = 0` give `[]`. -/
theorem get_page_skip_take_spec (seq : TodoMap) (pn ps : Nat) (h1 : 1 ≤ pn)
    (h2 : pn ≤ USIZE) (h3 : (pn - 1) * ps < USIZE) :
    get_page seq pn ps = (seq.drop ((pn - 1) * ps)).take ps
    ∧ (get_page seq pn ps).length ≤ ps
    ∧ (seq.length < (pn - 1) * ps → get_page seq pn ps = [])
    ∧ (ps = 0 → get_page seq pn ps = []) := by
  have he := get_page_eq_drop_take seq pn ps h1 h2 h3
  refine ⟨he, ?_, ?_, ?_⟩
  · rw [he, List.length_take]
    exact min_le_left _ _
  · intro hlt
    rw [he, List.drop_eq_nil_of_le (Nat.le_of_lt hlt)]
    exact List.take_nil
  · intro h0
    subst h0
    rw [he]
    rfl

theorem get_page_skip_take_spec_witness :
    get_page [(1, Todo.mk 1 "a" false)] 2 3 = [] :=
  (get_page_skip_take_spec [(1, Todo.mk 1 "a" false)] 2 3 (by norm_num) (by norm_num)
    (by norm_num)).2.2.1 (by norm_num)

/-- C2 counterexample: at `page_num = 2^32 + 1`, `page_size = 2^32` the skip
product is `2^64`, which exceeds the store length `1`, yet the wrapped `usize`
skip is `0` and `get_page` returns the full (non-empty) store. -/
theorem get_page_overflow_counterexample :
    List.length [(1, Todo.mk 1 "x" false)] < ((2 ^ 32 + 1) - 1) * (2 ^ 32)
    ∧ get_page [(1, Todo.mk 1 "x" false)] (2 ^ 32 + 1) (2 ^ 32)
        = [(1, Todo.mk 1 "x" false)] := by
  constructor
  · norm_num
  · decide

/-- C3 (amended): `read_todos` returns `none` exactly when the page is empty,
otherwise `some` of the records with ids dropped (order preserved, ascending
under the store invariant); for `page_num > ceil(S/P)` with the skip product in
`usize` range the result is `none`. -/
theorem read_todos_none_iff_empty_page (m : TodoMap) (pn ps : Nat) :
    (read_todos pn ps m = none ↔ get_page m pn ps = [])
    ∧ (get_page m pn ps ≠ [] →
        read_todos pn ps m = some ((get_page m pn ps).map (fun p => p.2)))
    ∧ (SortedKeys m → SortedKeys (get_page m pn ps))
    ∧ (1 ≤ pn → pn ≤ USIZE → 0 < ps → (pn - 1) * ps < USIZE →
        (m.length + ps - 1) / ps < pn → read_todos pn ps m = none) := by
  refine ⟨?_, ?_, ?_, ?_⟩
  · by_cases hp : get_page m pn ps = [] <;> simp [read_todos, hp]
  · intro hp
    simp [read_todos, List.isEmpty_iff, hp]
  · intro hs
    exact List.Pairwise.sublist
      (List.Sublist.trans (List.take_sublist _ _) (List.drop_sublist _ _)) hs
  · intro hpn1 hpn2 hps h3 hceil
    have he := get_page_eq_drop_take m pn ps hpn1 hpn2 h3
    have hlen : m.length ≤ (pn - 1) * ps := by
      have hq : m.length + ps - 1 < pn * ps := (Nat.div_lt_iff_lt_mul hps).mp hceil
      have hsub : (pn - 1) * ps = pn * ps - 1 * ps := Nat.sub_mul pn 1 ps
      rw [hsub, one_mul]
      generalize pn * ps = q at hq ⊢
      omega
    have hempty : get_page m pn ps = [] := by
      rw [he, List.drop_eq_nil_of_le hlen]
      exact List.take_nil
    simp [read_todos, hempty]

theorem read_todos_none_iff_empty_page_witness :
    read_todos 2 1 [(1, Todo.mk 1 "a" false)] = none :=
  (read_todos_none_iff_empty_page [(1, Todo.mk 1 "a" false)] 2 1).2.2.2
    (by norm_num) (by norm_num) (by norm_num) (by norm_num) (by norm_num)

/-- C3 counterexample: at `page_num = 2^33 + 1 > ceil(1/2^31) = 1`,
`page_size = 2^31`, the wrapped `usize` skip is `0`, so `read_todos` returns
`some` of the whole store instead of `none`. -/
theorem read_todos_overflow_counterexample :
    (List.length [(1, Todo.mk 1 "y" false)] + 2 ^ 31 - 1) / 2 ^ 31 < 2 ^ 33 + 1
    ∧ read_todos (2 ^ 33 + 1) (2 ^ 31) [(1, Todo.mk 1 "y" false)]
        = some [Todo.mk 1 "y" false] := by
  constructor
  · norm_num
  · decide

/-- C4: for `P > 0`, concatenating pages `1 .. ceil(S/P)` of a (64-bit-sized)
store reproduces the store's full ascending sequence exactly. -/
theorem pagination_complete (m : TodoMap) (P : Nat) (hP : 0 < P)
    (hm : m.length < USIZE) :
    ((List.range ((m.length + P - 1) / P)).map
      (fun i => get_page m (i + 1) P)).flatten = m := by
  have hU : USIZE = 18446744073709551616 := by norm_num
  rw [hU] at hm
  have hcongr : ∀ i ∈ List.range ((m.length + P - 1) / P),
      get_page m (i + 1) P = (m.drop (i * P)).take P := by
    intro i hi
    rw [List.mem_range] at hi
    have hiP : i * P < m.length := mul_lt_of_lt_ceil_div m.length P i hP hi
    have hle : (m.length + P - 1) / P ≤ m.length := ceil_div_le_self m.length P hP
    have h2 : i + 1 ≤ USIZE := by
      rw [hU]
      omega
    have h3 : (i + 1 - 1) * P < USIZE := by
      rw [hU, Nat.add_sub_cancel]
      exact Nat.lt_trans hiP hm
    have h := get_page_eq_drop_take m (i + 1) P (by omega) h2 h3
    rw [h, Nat.add_sub_cancel]
  rw [List.map_congr_left hcongr]
  exact chunks_flatten P hP _ m rfl

theorem pagination_complete_witness :
    ((List.range ((List.length [(1, Todo.mk 1 "a" false), (2, Todo.mk 2 "b" false),
        (3, Todo.mk 3 "c" false)] + 2 - 1) / 2)).map
      (fun i => get_page [(1, Todo.mk 1 "a" false), (2, Todo.mk 2 "b" false),
        (3, Todo.mk 3 "c" false)] (i + 1) 2)).flatten
      = [(1, Todo.mk 1 "a" false), (2, Todo.mk 2 "b" false), (3, Todo.mk 3 "c" false)] :=
  pagination_complete [(1, Todo.mk 1 "a" false), (2, Todo.mk 2 "b" false),
    (3, Todo.mk 3 "c" false)] 2 (by norm_num) (by norm_num)

/-- C5: for an id present in the (sorted) store, `update_todo` with
`title = some t`, `completed = none` changes only that record's title, keeping
its id and completed flag and every other entry; with both `none` it returns
the store unchanged. -/
theorem update_todo_partial_frame (m : TodoMap) (id : Nat) (r : Todo) (t : String)
    (hs : SortedKeys m) (h : getTodo id m = some r) :
    (∃ m', update_todo id (some t) none m = some m'
      ∧ getTodo id m' = some { id := r.id, title := t, completed := r.completed }
      ∧ ∀ j, j ≠ id → getTodo j m' = getTodo j m)
    ∧ update_todo id none none m = some m := by
  constructor
  · refine ⟨insertTodo id { r with title := t } m, ?_, ?_, ?_⟩
    · simp only [update_todo, h]
    · exact getTodo_insertTodo_self _ _ _
    · intro j hj
      exact getTodo_insertTodo_ne j id _ m hj
  · simp only [update_todo, h]
    rw [insertTodo_self_eq id r m hs h]

theorem update_todo_partial_frame_witness :
    (∃ m', update_todo 1 (some "z") none [(1, Todo.mk 1 "a" true)] = some m'
      ∧ getTodo 1 m' = some { id := 1, title := "z", completed := true }
      ∧ ∀ j, j ≠ 1 → getTodo j m' = getTodo j [(1, Todo.mk 1 "a" true)])
    ∧ update_todo 1 none none [(1, Todo.mk 1 "a" true)]
        = some [(1, Todo.mk 1 "a" true)] :=
  update_todo_partial_frame [(1, Todo.mk 1 "a" true)] 1 (Todo.mk 1 "a" true) "z"
    (by simp) rfl

/-- C6: on an absent id the model of `update_todo` hits the `unwrap` of a
`none` lookup — the trap marker — rather than any recoverable error value;
the function's Rust signature has no error channel at all. -/
theorem update_todo_missing_id_traps :
    getTodo 1 ([] : TodoMap) = none ∧ update_todo 1 none none ([] : TodoMap) = none :=
  ⟨rfl, rfl⟩

/-- C7: at `page_num = 0` the `usize` subtraction underflows (wrapping the
skip to `2^64 - 1` in release builds); the code returns an empty page and
`read_todos` returns `none` — no `InvalidArgument` rejection exists. -/
theorem get_page_zero_underflow :
    get_page [(1, Todo.mk 1 "a" false)] 0 1 = []
    ∧ read_todos 0 1 [(1, Todo.mk 1 "a" false)] = none := by
  have h1 : get_page [(1, Todo.mk 1 "a" false)] 0 1 = [] := by
    unfold get_page
    have e : (((0 + (USIZE - 1)) % USIZE) * 1) % USIZE = USIZE - 1 := by norm_num
    rw [e, List.drop_eq_nil_of_le (by norm_num)]
    rfl
  exact ⟨h1, by simp [read_todos, h1]⟩

/-- C8: decoding an encoded record reconstructs all three fields, for every
record whose id is a `u64` value and whose encoded size is within
`MAX_VALUE_SIZE`. -/
theorem decode_encode_roundtrip (r : Todo) (hid : r.id < 2 ^ 64)
    (hsize : (encodeTodo r).length ≤ MAX_VALUE_SIZE) :
    decodeTodo (encodeTodo r) = some r := by
  have hl := encodeTodo_length r
  have hlen : r.title.length < 2 ^ 32 := by
    rw [hl] at hsize
    unfold MAX_VALUE_SIZE at hsize
    omega
  exact decodeTodo_encodeTodo r hid hlen

theorem decode_encode_roundtrip_witness :
    decodeTodo (encodeTodo (Todo.mk 1 "a" true)) = some (Todo.mk 1 "a" true) :=
  decode_encode_roundtrip (Todo.mk 1 "a" true) (by norm_num) (by decide)

/-- C9: a 100-character title pushes the encoded size past `MAX_VALUE_SIZE`,
yet `create_todo` still returns a plain id — there is no `EncodingError`
value anywhere in its `u64`-returning signature (the bound is enforced by a
panic, or a discarded error, inside the storage library). -/
theorem create_todo_oversized_no_error :
    MAX_VALUE_SIZE
      < (encodeTodo (Todo.mk 1 (String.mk (List.replicate 100 'a')) false)).length
    ∧ (create_todo (String.mk (List.replicate 100 'a')) []).1 = 1 := by
  constructor
  · rw [encodeTodo_length]
    have hlen : (String.mk (List.replicate 100 'a')).length = 100 := by
      simp [String.length]
    rw [hlen]
    norm_num [MAX_VALUE_SIZE]
  · rfl

/-- C10: the live-count id scheme reuses ids: after create, delete, create the
second record receives the first record's id 1; and after create, create,
delete 1, create the new record receives the still-live id 2, overwriting
that record. -/
theorem create_todo_id_reuse :
    ((create_todo "a" []).1 = 1
      ∧ delete_todo 1 (create_todo "a" []).2 = []
      ∧ (create_todo "b" (delete_todo 1 (create_todo "a" []).2)).1 = 1)
    ∧ ((create_todo "c" (delete_todo 1 (create_todo "b" (create_todo "a" []).2).2)).1 = 2
      ∧ getTodo 2 (delete_todo 1 (create_todo "b" (create_todo "a" []).2).2)
          = some (Todo.mk 2 "b" false)
      ∧ getTodo 2 (create_todo "c" (delete_todo 1 (create_todo "b"
          (create_todo "a" []).2).2)).2 = some (Todo.mk 2 "c" false)) := by
  decide
